import Mathlib

/-!
# Verification of the rogger live multi-source log viewer

Shallow embedding, in Lean 4, of the core data structures and algorithms of
the `rogger` terminal log dashboard (Rust sources `src/main.rs`, `src/ssh.rs`,
`src/ui.rs`, `src/config.rs`), together with proofs and refutations of the
behavioural claims stated in the project's specification.

Conventions:
* Rust `usize` values are modelled as `Nat`; `saturating_sub` is `Nat`
  subtraction (which is saturating), except where the absence of underflow is
  itself being verified, in which case the scroll position is modelled as an
  `Int` together with an explicit saturating subtraction.
* `Vec<String>` history buffers are `List` values, with `Vec::push` mapped to
  appending at the end and `Vec::remove(0)` mapped to dropping the head.
* Text is modelled either as `String` (history buffers) or as `List Char`
  (highlighting, trimming), and a display line fed to the wrapper is the list
  of its grapheme clusters, each carrying its display width; grapheme
  segmentation and width lookup themselves are performed by external crates
  (`unicode-segmentation`, `unicode-width`) and enter the model as data.
-/

namespace Rogger

/-! ## HistoryBuffer (`src/ssh.rs` `update_content`, `src/main.rs` ingestion loop)

`update_content` does `content.push(line); while content.len() > max_history
{ content.remove(0) }`.  `evictLoop` is the `while` loop, `push_and_evict` the
push followed by the loop. -/

/-- The eviction loop of `update_content`: while the buffer is longer than
`maxHistory`, remove the oldest (front) element.  (The loop body runs only
while the buffer is nonempty, since a length strictly above `maxHistory` is
positive, so recursion on the list structure is exact.) -/
def evictLoop (maxHistory : Nat) : List α → List α
  | [] => []
  | a :: t => if (a :: t).length > maxHistory then evictLoop maxHistory t else a :: t

/-- `content.push(line)` followed by the eviction loop, as in `update_content`
(`src/ssh.rs:120-125`) and the ingestion loop of `src/main.rs:242-247`. -/
def push_and_evict (maxHistory : Nat) (buf : List α) (line : α) : List α :=
  evictLoop maxHistory (buf ++ [line])

/-- The last `m` elements of a list, in order. -/
def takeLast (m : Nat) (l : List α) : List α :=
  (l.reverse.take m).reverse

theorem evictLoop_eq_drop (m : Nat) (l : List α) :
    evictLoop m l = l.drop (l.length - m) := by
  induction l with
  | nil => simp [evictLoop]
  | cons a t ih =>
    rw [evictLoop]
    by_cases h : (a :: t).length > m
    · rw [if_pos h, ih]
      have hlen : (a :: t).length - m = (t.length - m) + 1 := by
        simp only [List.length_cons] at h ⊢
        omega
      rw [hlen, List.drop_succ_cons]
    · rw [if_neg h]
      have hlen : (a :: t).length - m = 0 := by
        simp only [List.length_cons] at h ⊢
        omega
      rw [hlen, List.drop_zero]

theorem takeLast_eq_drop (m : Nat) (l : List α) :
    takeLast m l = l.drop (l.length - m) := by
  induction l with
  | nil => simp [takeLast]
  | cons a t ih =>
    by_cases h : m ≥ (a :: t).length
    · have h0 : t.length + 1 ≤ m := by simpa using h
      have h1 : (a :: t).length - m = 0 := by
        simp only [List.length_cons]
        omega
      have h2 : (t.reverse ++ [a]).take m = t.reverse ++ [a] := by
        apply List.take_of_length_le
        simp only [List.length_append, List.length_reverse, List.length_cons,
          List.length_nil]
        omega
      have h3 : t.length + 1 - m = 0 := by omega
      simp [takeLast, h1, h2, h3]
    · have h0 : m ≤ t.length := by
        simp only [List.length_cons, ge_iff_le, not_le] at h
        omega
      have h1 : (a :: t).length - m = (t.length - m) + 1 := by
        simp only [List.length_cons]
        omega
      have h2 : (a :: t).reverse.take m = t.reverse.take m := by
        rw [List.reverse_cons]
        apply List.take_append_of_le_length
        simpa using h0
      simp only [takeLast, h1, h2, List.drop_succ_cons] at *
      exact ih

theorem evictLoop_eq_takeLast (m : Nat) (l : List α) :
    evictLoop m l = takeLast m l := by
  rw [evictLoop_eq_drop, takeLast_eq_drop]

theorem takeLast_length_le (m : Nat) (l : List α) :
    (takeLast m l).length ≤ m := by
  simp only [takeLast, List.length_reverse]
  exact (List.length_take m l.reverse).le.trans (Nat.min_le_left _ _)

/-- Appending one element and re-taking the last `m`: only the last `m`
elements of the old buffer matter. -/
theorem takeLast_append_singleton (m : Nat) (l : List α) (a : α) :
    takeLast m (takeLast m l ++ [a]) = takeLast m (l ++ [a]) := by
  cases m with
  | zero => simp [takeLast]
  | succ k =>
    simp only [takeLast, List.reverse_append, List.reverse_reverse,
      List.reverse_cons, List.nil_append, List.reverse_nil,
      List.singleton_append]
    have h1 : (a :: l.reverse.take (k + 1)).take (k + 1)
        = a :: (l.reverse.take (k + 1)).take k := by
      simp [List.take_succ_cons]
    have h2 : (a :: l.reverse).take (k + 1) = a :: l.reverse.take k := by
      simp [List.take_succ_cons]
    rw [h1, h2, List.take_take]
    simp [Nat.min_le_left, Nat.min_eq_left (Nat.le_succ k)]

/-- Folding pushes over a normalized buffer keeps only the last `m` pushes. -/
theorem foldl_push_and_evict (m : Nat) (lines : List α) :
    ∀ buf : List α,
      lines.foldl (push_and_evict m) (takeLast m buf) = takeLast m (buf ++ lines) := by
  induction lines with
  | nil => intro buf; simp
  | cons l ls ih =>
    intro buf
    have hstep : push_and_evict m (takeLast m buf) l = takeLast m (buf ++ [l]) := by
      rw [push_and_evict, evictLoop_eq_takeLast, takeLast_append_singleton]
    calc (l :: ls).foldl (push_and_evict m) (takeLast m buf)
        = ls.foldl (push_and_evict m) (takeLast m (buf ++ [l])) := by
          rw [List.foldl_cons, hstep]
      _ = takeLast m ((buf ++ [l]) ++ ls) := ih (buf ++ [l])
      _ = takeLast m (buf ++ (l :: ls)) := by simp

theorem pushes_from_empty (m : Nat) (lines : List α) :
    lines.foldl (push_and_evict m) [] = takeLast m lines := by
  have h := foldl_push_and_evict m lines []
  simpa [takeLast] using h

/-- C1.  For every sequence of pushed lines and every `max_history` bound,
after each push the history buffer's length is at most `max_history` and the
buffer is exactly the most-recently-pushed `max_history` lines in arrival
order (oldest evicted first); with `max_history = 3`, pushing
"a","b","c","d" leaves exactly ["b","c","d"].  (Since the statement is
universally quantified over the pushed sequence, it applies to every prefix
of a longer sequence, i.e. holds after every push.) -/
theorem history_buffer_fifo_bound (m : Nat) (lines : List String) :
    (lines.foldl (push_and_evict m) []).length ≤ m ∧
    lines.foldl (push_and_evict m) [] = takeLast m lines ∧
    ["a", "b", "c", "d"].foldl (push_and_evict 3) [] = ["b", "c", "d"] := by
  refine ⟨?_, pushes_from_empty m lines, ?_⟩
  · rw [pushes_from_empty]
    exact takeLast_length_le m lines
  · rw [pushes_from_empty]
    decide

/-! ## LineWrapper (`wrap_line`, `src/ui.rs:273-304` and `src/main.rs:420-451`)

The Rust code iterates over the grapheme clusters of the line
(`line.graphemes(true)`), each with a display width from `unicode-width`.
A line is therefore modelled as a `List α` of grapheme clusters together
with a width function `width : α → Nat`; the wrapper never inspects a
cluster beyond its width. -/

/-- The body of `wrap_line`'s `for` loop plus the trailing flush, carrying the
accumulator `cur` (the `current_line`) and its running width `cw`
(`current_width`), exactly as in the source. -/
def wrapGo (width : α → Nat) (maxWidth : Nat) :
    List α → Nat → List α → List (List α)
  | cur, _cw, [] => if cur.isEmpty then [] else [cur]
  | cur, cw, g :: gs =>
    if cw + width g > maxWidth then
      if width g > maxWidth then
        (if cur.isEmpty then [[g]] else [cur, [g]]) ++ wrapGo width maxWidth [] 0 gs
      else
        (if cur.isEmpty then [] else [cur]) ++ wrapGo width maxWidth [g] (width g) gs
    else
      wrapGo width maxWidth (cur ++ [g]) (cw + width g) gs

/-- `wrap_line(line, max_width)`: split a line (a sequence of grapheme
clusters) into display-width-bounded sub-lines. -/
def wrap_line (width : α → Nat) (line : List α) (maxWidth : Nat) : List (List α) :=
  wrapGo width maxWidth [] 0 line

/-- Total display width of a sub-line. -/
def lineWidth (width : α → Nat) (l : List α) : Nat :=
  (l.map width).sum

/-- Round-trip: the sub-lines produced by the wrapper loop concatenate back to
the accumulator followed by the remaining input. -/
theorem wrapGo_join (width : α → Nat) (maxWidth : Nat) (gs : List α) :
    ∀ (cur : List α) (cw : Nat), (wrapGo width maxWidth cur cw gs).flatten = cur ++ gs := by
  induction gs with
  | nil =>
    intro cur cw
    by_cases h : cur.isEmpty
    · rw [List.isEmpty_iff] at h
      simp [wrapGo, h]
    · simp [wrapGo, h]
  | cons g gs ih =>
    intro cur cw
    rw [wrapGo]
    by_cases h1 : cw + width g > maxWidth
    · rw [if_pos h1]
      by_cases h2 : width g > maxWidth
      · rw [if_pos h2]
        by_cases h3 : cur.isEmpty
        · rw [List.isEmpty_iff] at h3
          simp [h3, if_pos, List.flatten_append, ih]
        · simp only [h3, Bool.false_eq_true, ite_false, List.flatten_append,
            List.flatten_cons, List.flatten_nil, ih]
          simp
      · rw [if_neg h2]
        by_cases h3 : cur.isEmpty
        · rw [List.isEmpty_iff] at h3
          simp [h3, ih]
        · simp only [h3, Bool.false_eq_true, ite_false, List.flatten_append,
            List.flatten_cons, List.flatten_nil, ih]
          simp
    · rw [if_neg h1, ih]
      simp

/-- Round-trip for `wrap_line` itself: concatenating all produced sub-lines
reproduces the original line. -/
theorem wrap_line_join (width : α → Nat) (line : List α) (maxWidth : Nat) :
    (wrap_line width line maxWidth).flatten = line := by
  simpa using wrapGo_join width maxWidth line [] 0

/-- Width bound for the wrapper loop: provided the accumulator is within
bounds, every emitted sub-line either fits in `maxWidth` or is a single
grapheme cluster wider than `maxWidth`. -/
theorem wrapGo_width (width : α → Nat) (maxWidth : Nat) (gs : List α) :
    ∀ (cur : List α) (cw : Nat), cw = lineWidth width cur → cw ≤ maxWidth →
      ∀ sub ∈ wrapGo width maxWidth cur cw gs,
        lineWidth width sub ≤ maxWidth ∨ ∃ g, sub = [g] ∧ width g > maxWidth := by
  induction gs with
  | nil =>
    intro cur cw hcw hle sub hsub
    by_cases h : cur.isEmpty
    · simp [wrapGo, h] at hsub
    · simp only [wrapGo, h, Bool.false_eq_true, ite_false, List.mem_singleton] at hsub
      subst hsub
      exact Or.inl (hcw ▸ hle)
  | cons g gs ih =>
    intro cur cw hcw hle sub hsub
    rw [wrapGo] at hsub
    by_cases h1 : cw + width g > maxWidth
    · rw [if_pos h1] at hsub
      by_cases h2 : width g > maxWidth
      · rw [if_pos h2] at hsub
        by_cases h3 : cur.isEmpty
        · simp only [h3, ite_true, List.singleton_append, List.mem_cons] at hsub
          rcases hsub with rfl | hsub
          · exact Or.inr ⟨g, rfl, h2⟩
          · exact ih [] 0 (by simp [lineWidth]) (Nat.zero_le _) sub hsub
        · simp only [h3, Bool.false_eq_true, ite_false, List.cons_append,
            List.singleton_append, List.mem_cons] at hsub
          rcases hsub with rfl | rfl | hsub
          · exact Or.inl (hcw ▸ hle)
          · exact Or.inr ⟨g, rfl, h2⟩
          · exact ih [] 0 (by simp [lineWidth]) (Nat.zero_le _) sub hsub
      · rw [if_neg h2] at hsub
        have hgle : width g ≤ maxWidth := Nat.le_of_not_lt h2
        by_cases h3 : cur.isEmpty
        · simp only [h3, ite_true, List.nil_append] at hsub
          exact ih [g] (width g) (by simp [lineWidth]) hgle sub hsub
        · simp only [h3, Bool.false_eq_true, ite_false, List.singleton_append,
            List.mem_cons] at hsub
          rcases hsub with rfl | hsub
          · exact Or.inl (hcw ▸ hle)
          · exact ih [g] (width g) (by simp [lineWidth]) hgle sub hsub
    · rw [if_neg h1] at hsub
      have hle' : cw + width g ≤ maxWidth := Nat.le_of_not_lt h1
      exact ih (cur ++ [g]) (cw + width g)
        (by simp [lineWidth, hcw]) hle' sub hsub

/-- C7.  For every input line and every positive max display width,
concatenating all sub-lines produced by `wrap_line` reproduces the original
line exactly, and no produced sub-line has total display width exceeding the
max width unless it is a single grapheme cluster that is itself wider than
the max width (emitted alone on its own sub-line). -/
theorem wrap_line_roundtrip_and_bound (width : α → Nat) (line : List α)
    (maxWidth : Nat) (_hpos : 0 < maxWidth) :
    (wrap_line width line maxWidth).flatten = line ∧
    ∀ sub ∈ wrap_line width line maxWidth,
      lineWidth width sub ≤ maxWidth ∨ ∃ g, sub = [g] ∧ width g > maxWidth := by
  refine ⟨wrap_line_join width line maxWidth, ?_⟩
  exact wrapGo_width width maxWidth line [] 0 (by simp [lineWidth]) (Nat.zero_le _)

/-- Witness for C7 at a concrete input: clusters of widths 1, 2, 3 wrapped at
max width 2. -/
theorem wrap_line_roundtrip_and_bound_witness :
    0 < 2 ∧
    ((wrap_line (fun w : Nat => w) [1, 2, 3] 2).flatten = [1, 2, 3] ∧
    ∀ sub ∈ wrap_line (fun w : Nat => w) [1, 2, 3] 2,
      lineWidth (fun w : Nat => w) sub ≤ 2 ∨ ∃ g, sub = [g] ∧ g > 2) :=
  ⟨by decide, wrap_line_roundtrip_and_bound (fun w => w) [1, 2, 3] 2 (by decide)⟩

/-! ## ViewportState (`src/ui.rs` `scroll_log` 306-349 and `render_window` 197-203)

The scroll position is a Rust `usize` mutated only through guarded
decrements and `saturating_sub`; to verify the absence of underflow it is
modelled as an `Int` together with an explicit saturating subtraction
`satSub`.  A viewport state is the pair `(scroll_position, has_scrolled)`.

In maximized mode (the only mode in which `scroll_log` does not return
early) the pane rendered by `render_window` covers the whole terminal, so
`scroll_log`'s `page_size = window_height - 2` equals `render_window`'s
`height = area.height - 2`; both are the parameter `h` below. -/

/-- `usize::saturating_sub` on the integers (for non-negative inputs). -/
def satSub (a b : Int) : Int := max 0 (a - b)

inductive ScrollDirection
  | Up | Down | PageUp | PageDown | Top | Bottom

/-- `scroll_log` (`src/ui.rs:306-349`): navigation on the pair
`(scroll_position, has_scrolled)`, given the raw line count `contentLen`
and the page size.  The caller guard `if !app_state.is_maximized { return }`
is handled in `ui_step` below. -/
def scroll_log (contentLen pageSize : Int) (d : ScrollDirection)
    (s : Int × Bool) : Int × Bool :=
  let sp := s.1
  let sp' :=
    match d with
    | .Up => if sp > 0 then sp - 1 else sp
    | .Down => if sp < satSub contentLen pageSize then sp + 1 else sp
    | .PageUp => satSub sp pageSize
    | .PageDown => min (sp + pageSize) (satSub contentLen pageSize)
    | .Top => 0
    | .Bottom => satSub contentLen pageSize
  (sp', s.2 || (sp' != sp))

/-- The scroll-position recomputation at the top of `render_window`
(`src/ui.rs:197-203`): auto-follow when not maximized or not user-scrolled,
otherwise clamp to the wrapped-line bound. -/
def render_window_scroll (totalLines height : Int) (isMaximized : Bool)
    (s : Int × Bool) : Int × Bool :=
  if !isMaximized || !s.2 then (satSub totalLines height, s.2)
  else (min s.1 (satSub totalLines height), s.2)

/-- Total number of wrapped lines of the buffer contents, as accumulated by
`render_window` (`src/ui.rs:189-195`). -/
def total_wrapped_lines (width : α → Nat) (content : List (List α))
    (maxWidth : Nat) : Nat :=
  (content.map (fun l => (wrap_line width l maxWidth).length)).sum

/-- One event of the render/input loop: a navigation key or a frame redraw. -/
inductive UiStep
  | nav (d : ScrollDirection)
  | frame

def ui_step (contentLen pageSize totalLines height : Int) (isMaximized : Bool)
    (s : Int × Bool) : UiStep → Int × Bool
  | .nav d => if isMaximized then scroll_log contentLen pageSize d s else s
  | .frame => render_window_scroll totalLines height isMaximized s

/-- Run a sequence of navigation/frame events from the initial viewport state
`(0, false)`, in maximized mode. -/
def ui_run (contentLen pageSize totalLines height : Int)
    (steps : List UiStep) : Int × Bool :=
  steps.foldl (ui_step contentLen pageSize totalLines height true) (0, false)

/-- C2.  Whenever `has_user_scrolled` is false, the per-frame recomputation in
the renderer sets `scroll_position` to exactly `max 0 (totalLines − height)`,
regardless of the prior value and of `is_maximized`; in particular with pane
height 5 and 12 wrapped lines it becomes 7. -/
theorem auto_follow_recompute (isMax : Bool) (prev totalLines height : Int) :
    (render_window_scroll totalLines height isMax (prev, false)).1
        = max 0 (totalLines - height) ∧
    (render_window_scroll 12 5 isMax (prev, false)).1 = 7 := by
  constructor
  · simp [render_window_scroll, satSub]
  · simp [render_window_scroll, satSub]

theorem ui_step_nonneg (cl ps tl h : Int) (m : Bool) (s : Int × Bool)
    (st : UiStep) (hps : 0 ≤ ps) (hs : 0 ≤ s.1) :
    0 ≤ (ui_step cl ps tl h m s st).1 := by
  cases st with
  | frame =>
    simp only [ui_step, render_window_scroll, satSub]
    split <;> omega
  | nav d =>
    simp only [ui_step]
    split
    · cases d <;> simp only [scroll_log, satSub] <;> (try split) <;> omega
    · exact hs

theorem ui_step_bound (cl ps tl h : Int) (s : Int × Bool) (st : UiStep)
    (hps : 0 ≤ ps) (hcb : satSub cl ps ≤ satSub tl h)
    (hs : 0 ≤ s.1 ∧ s.1 ≤ satSub tl h) :
    0 ≤ (ui_step cl ps tl h true s st).1 ∧
      (ui_step cl ps tl h true s st).1 ≤ satSub tl h := by
  obtain ⟨hs0, hs1⟩ := hs
  cases st with
  | frame =>
    simp only [ui_step, render_window_scroll, satSub] at *
    split <;> constructor <;> omega
  | nav d =>
    simp only [ui_step, if_true]
    cases d <;> simp only [scroll_log, satSub] at * <;> (try split) <;>
      constructor <;> omega

theorem ui_run_nonneg (cl ps tl h : Int) (hps : 0 ≤ ps) (steps : List UiStep) :
    0 ≤ (ui_run cl ps tl h steps).1 := by
  rw [ui_run]
  have : ∀ s : Int × Bool, 0 ≤ s.1 →
      0 ≤ (steps.foldl (ui_step cl ps tl h true) s).1 := by
    induction steps with
    | nil => intro s hs; simpa using hs
    | cons st sts ih =>
      intro s hs
      exact ih _ (ui_step_nonneg cl ps tl h true s st hps hs)
  exact this (0, false) le_rfl

theorem ui_run_frame_clamped (cl ps tl h : Int) (steps : List UiStep) :
    (ui_run cl ps tl h (steps ++ [UiStep.frame])).1 ≤ satSub tl h := by
  rw [ui_run, List.foldl_append]
  simp only [List.foldl_cons, List.foldl_nil, ui_step, render_window_scroll, satSub]
  split <;> omega

theorem ui_run_invariant (cl ps tl h : Int) (hps : 0 ≤ ps)
    (hcb : satSub cl ps ≤ satSub tl h) (steps : List UiStep) :
    (ui_run cl ps tl h steps).1 ≤ satSub tl h := by
  rw [ui_run]
  have : ∀ s : Int × Bool, 0 ≤ s.1 ∧ s.1 ≤ satSub tl h →
      (steps.foldl (ui_step cl ps tl h true) s).1 ≤ satSub tl h := by
    induction steps with
    | nil => intro s hs; simpa using hs.2
    | cons st sts ih =>
      intro s hs
      exact ih _ (ui_step_bound cl ps tl h s st hps hcb hs)
  apply this
  constructor
  · exact le_rfl
  · simp [satSub]

/-- A nonempty line always wraps to at least one sub-line. -/
theorem wrap_line_ne_nil (width : α → Nat) (l : List α) (maxWidth : Nat)
    (hl : l ≠ []) : wrap_line width l maxWidth ≠ [] := by
  intro hnil
  have := wrap_line_join width l maxWidth
  rw [hnil] at this
  exact hl this.symm

/-- If every buffered line is nonempty, the wrapped line count dominates the
raw line count. -/
theorem length_le_total_wrapped (width : α → Nat) (content : List (List α))
    (maxWidth : Nat) (hne : ∀ l ∈ content, l ≠ []) :
    content.length ≤ total_wrapped_lines width content maxWidth := by
  induction content with
  | nil => simp [total_wrapped_lines]
  | cons l ls ih =>
    have h1 : wrap_line width l maxWidth ≠ [] :=
      wrap_line_ne_nil width l maxWidth (hne l (List.mem_cons_self l ls))
    have h2 : 1 ≤ (wrap_line width l maxWidth).length :=
      Nat.succ_le_of_lt (List.length_pos.mpr h1)
    have h3 := ih (fun x hx => hne x (List.mem_cons_of_mem l hx))
    simp only [total_wrapped_lines, List.map_cons, List.sum_cons, List.length_cons]
    simp only [total_wrapped_lines] at h3
    omega


/-- C3 (counterexample).  With buffer `[[], [x]]` (an empty line and a
one-cluster line, so 2 raw lines but only 1 wrapped line), pane height 1 and
page size 1, the sequence frame-redraw then Down leaves
`scroll_position = 1`, strictly above the claimed bound
`max 0 (total_wrapped_lines − pane_height) = 0`: `scroll_log` clamps the
Down key against the raw line count (`content_len - page_size = 1`), not the
wrapped count. -/
theorem scroll_clamp_counterexample :
    total_wrapped_lines (fun w : Nat => w) [[], [1]] 5 = 1 ∧
    ([[], [1]] : List (List Nat)).length = 2 ∧
    (ui_run 2 1 1 1 [UiStep.frame, UiStep.nav ScrollDirection.Down]).1 = 1 ∧
    ¬ ((ui_run 2 1 1 1 [UiStep.frame, UiStep.nav ScrollDirection.Down]).1
        ≤ max 0 ((1 : Int) - 1)) := by
  decide

/-- C3 (amended).  For every sequence of navigation commands interleaved with
frame recomputations (maximized mode, pane height = page size = `h`),
starting from `(0, false)`: the scroll position never underflows below 0;
after every frame recomputation it is at most
`max 0 (total_wrapped_lines − h)` (in particular, when `h` is at least the
wrapped line count the bound is 0); and when every buffered line is nonempty
(so raw lines never wrap to zero sub-lines) the bound also holds after every
navigation command. -/
theorem scroll_position_clamped_amended (width : α → Nat)
    (content : List (List α)) (maxWidth h : Nat) (steps : List UiStep) :
    0 ≤ (ui_run (content.length : Int) (h : Int)
        ((total_wrapped_lines width content maxWidth : Nat) : Int) (h : Int)
        steps).1 ∧
    (ui_run (content.length : Int) (h : Int)
        ((total_wrapped_lines width content maxWidth : Nat) : Int) (h : Int)
        (steps ++ [UiStep.frame])).1
      ≤ max 0 (((total_wrapped_lines width content maxWidth : Nat) : Int) - (h : Int)) ∧
    ((∀ l ∈ content, l ≠ []) →
      (ui_run (content.length : Int) (h : Int)
          ((total_wrapped_lines width content maxWidth : Nat) : Int) (h : Int)
          steps).1
        ≤ max 0 (((total_wrapped_lines width content maxWidth : Nat) : Int) - (h : Int))) := by
  refine ⟨?_, ?_, ?_⟩
  · exact ui_run_nonneg _ _ _ _ (Int.natCast_nonneg h) steps
  · simpa [satSub] using ui_run_frame_clamped (content.length : Int) (h : Int)
      ((total_wrapped_lines width content maxWidth : Nat) : Int) (h : Int) steps
  · intro hne
    have hlen : (content.length : Int)
        ≤ ((total_wrapped_lines width content maxWidth : Nat) : Int) := by
      exact_mod_cast length_le_total_wrapped width content maxWidth hne
    have hcb : satSub (content.length : Int) (h : Int)
        ≤ satSub ((total_wrapped_lines width content maxWidth : Nat) : Int) (h : Int) := by
      simp only [satSub]
      omega
    simpa [satSub] using ui_run_invariant (content.length : Int) (h : Int)
      ((total_wrapped_lines width content maxWidth : Nat) : Int) (h : Int)
      (Int.natCast_nonneg h) hcb steps

/-- Witness for C3 (amended) at buffer `[[1],[2]]`, max width 5, height 1,
one Down key. -/
theorem scroll_position_clamped_amended_witness :
    0 ≤ (ui_run ((([[1], [2]] : List (List Nat)).length : Nat) : Int) ((1 : Nat) : Int)
        ((total_wrapped_lines (fun w : Nat => w) [[1], [2]] 5 : Nat) : Int) ((1 : Nat) : Int)
        [UiStep.nav ScrollDirection.Down]).1 ∧
    (ui_run ((([[1], [2]] : List (List Nat)).length : Nat) : Int) ((1 : Nat) : Int)
        ((total_wrapped_lines (fun w : Nat => w) [[1], [2]] 5 : Nat) : Int) ((1 : Nat) : Int)
        ([UiStep.nav ScrollDirection.Down] ++ [UiStep.frame])).1
      ≤ max 0 (((total_wrapped_lines (fun w : Nat => w) [[1], [2]] 5 : Nat) : Int) - ((1 : Nat) : Int)) ∧
    (ui_run ((([[1], [2]] : List (List Nat)).length : Nat) : Int) ((1 : Nat) : Int)
        ((total_wrapped_lines (fun w : Nat => w) [[1], [2]] 5 : Nat) : Int) ((1 : Nat) : Int)
        [UiStep.nav ScrollDirection.Down]).1
      ≤ max 0 (((total_wrapped_lines (fun w : Nat => w) [[1], [2]] 5 : Nat) : Int) - ((1 : Nat) : Int)) := by
  have h := scroll_position_clamped_amended (fun w : Nat => w) [[1], [2]] 5 1
    [UiStep.nav ScrollDirection.Down]
  exact ⟨h.1, h.2.1, h.2.2 (by decide)⟩


/-! ## SourceSession and ConnectionStatus (`src/ssh.rs`, `src/main.rs`)

The network transport (TCP, ssh2 handshake, authentication, exec, reads) is
the external collaborator; its outcomes enter the model as the `SshEnv`
record.  `connect_and_tail` (`src/ssh.rs:15-68`) is embedded as the value it
returns together with the ordered sequence of writes it performs on the
connection-status cell. -/

/-- `ConnectionStatus` (`src/ssh.rs:10-13` and `src/main.rs:38-41`): the code
has exactly two variants — there is no `Connecting` variant. -/
inductive ConnectionStatus
  | Connected
  | Error (msg : String)
deriving DecidableEq

/-- Whether a status is the `Error` variant. -/
def ConnectionStatus.isError : ConnectionStatus → Bool
  | .Error _ => true
  | .Connected => false

/-- The value stored in each source's status cell at startup
(`src/main.rs:87`): `ConnectionStatus::Connected`. -/
def initialConnectionStatus : ConnectionStatus := ConnectionStatus.Connected

/-- Modelled from the spec: the three-state connection lifecycle
`Connecting → Connected → Error(reason)` that the specification describes.
Used only to compare the code's status type against the spec's states. -/
inductive SpecConnectionStatus
  | Connecting
  | Connected
  | Error (msg : String)
deriving DecidableEq

/-- Rendering of a code status as a spec status. -/
def specStatusOfCode : ConnectionStatus → SpecConnectionStatus
  | .Connected => SpecConnectionStatus.Connected
  | .Error m => SpecConnectionStatus.Error m

/-- The fields of `config::LogConfig` (`src/config.rs:22-32`) consulted by
the session code. -/
structure LogConfig where
  host : String
  username : Option String
  password : Option String
  ssh_key : Option String

/-- A network authentication call made through the ssh2 session. -/
inductive AuthCall
  | userauth_password
  | userauth_pubkey_file
deriving DecidableEq

/-- Outcomes of the external ssh2/network collaborator, consumed as data:
`none` means the corresponding call succeeds, `some e` that it fails with
message `e`; `reads` is the sequence of `read_line` results. -/
structure SshEnv where
  connectErr : Option String
  handshakeErr : Option String
  passwordAuthErr : Option String
  pubkeyAuthErr : Option String
  execErr : Option String
  reads : List (Except String String)

/-- `authenticate` (`src/ssh.rs:70-85`): password if provided, else key file
if provided, else fail with "No authentication method provided" without
touching the network.  Returns the result paired with the network auth
calls actually attempted. -/
def authenticate (log : LogConfig) (env : SshEnv) :
    Except String Unit × List AuthCall :=
  match log.password with
  | some _ =>
    (match env.passwordAuthErr with
     | some e => Except.error e
     | none => Except.ok (), [AuthCall.userauth_password])
  | none =>
    match log.ssh_key with
    | some _ =>
      (match env.pubkeyAuthErr with
       | some e => Except.error e
       | none => Except.ok (), [AuthCall.userauth_pubkey_file])
    | none => (Except.error "No authentication method provided", [])

/-- The first read error in the stream, if any (the read loop of
`process_log_stream` stops at it). -/
def firstReadError : List (Except String String) → Option String
  | [] => none
  | Except.ok _ :: rs => firstReadError rs
  | Except.error e :: _ => some e

/-- Status writes performed by the read loop of `process_log_stream`
(`src/ssh.rs:96-109`): no write per successful line or on EOF, one terminal
`Read Err` write on the first read error. -/
def readLoopWrites (host : String) :
    List (Except String String) → List ConnectionStatus
  | [] => []
  | Except.ok _ :: rs => readLoopWrites host rs
  | Except.error e :: _ =>
    [ConnectionStatus.Error ("Read Err (" ++ host ++ "): " ++ e)]

/-- The ordered sequence of writes `connect_and_tail` (`src/ssh.rs:15-68`)
performs on the connection-status cell.  Connect and handshake failures
write an `Error`; authentication and exec failures return early via `?`
without any status write; on success `Connected` is written before the read
loop starts. -/
def connect_and_tail_writes (log : LogConfig) (env : SshEnv) :
    List ConnectionStatus :=
  match env.connectErr with
  | some e => [ConnectionStatus.Error ("Connect Err: " ++ e)]
  | none =>
    match env.handshakeErr with
    | some e => [ConnectionStatus.Error ("Handshake Err: " ++ e)]
    | none =>
      match (authenticate log env).1 with
      | Except.error _ => []
      | Except.ok _ =>
        match env.execErr with
        | some _ => []
        | none => ConnectionStatus.Connected :: readLoopWrites log.host env.reads

/-- The `io::Result` value returned by `connect_and_tail`: each failing stage
propagates its error via `?`; the read loop itself always returns `Ok(())`
(both on EOF and after recording a read error). -/
def connect_and_tail_result (log : LogConfig) (env : SshEnv) :
    Except String Unit :=
  match env.connectErr with
  | some e => Except.error e
  | none =>
    match env.handshakeErr with
    | some e => Except.error e
    | none =>
      match (authenticate log env).1 with
      | Except.error e => Except.error e
      | Except.ok _ =>
        match env.execErr with
        | some e => Except.error e
        | none => Except.ok ()

/-- The status cell after a run: the initial value overwritten by each write
in order. -/
def finalStatus (init : ConnectionStatus) (writes : List ConnectionStatus) :
    ConnectionStatus :=
  writes.foldl (fun _ w => w) init

/-- `true` iff every `Error` write is the last write of the run (no write
ever follows an `Error` write). -/
def errorIsTerminal : List ConnectionStatus → Bool
  | [] => true
  | [_] => true
  | s :: rest => !s.isError && errorIsTerminal rest

theorem readLoopWrites_eq (host : String) (rs : List (Except String String)) :
    readLoopWrites host rs
      = match firstReadError rs with
        | some e => [ConnectionStatus.Error ("Read Err (" ++ host ++ "): " ++ e)]
        | none => [] := by
  induction rs with
  | nil => rfl
  | cons r rs ih =>
    cases r with
    | ok _ => simpa [readLoopWrites, firstReadError] using ih
    | error e => simp [readLoopWrites, firstReadError]

/-- C4 (counterexample).  A source with neither password nor key file, whose
connect and handshake succeed: `connect_and_tail` does return the
"No authentication method provided" error without any network auth call,
but it performs no status write on the way out, so the source's connection
status stays `Connected` (its `src/main.rs:87` initial value) — the failure
is never surfaced as an `Error(message)` status. -/
theorem no_auth_status_counterexample :
    connect_and_tail_result ⟨"host1", none, none, none⟩
        ⟨none, none, none, none, none, []⟩
      = Except.error "No authentication method provided" ∧
    (authenticate ⟨"host1", none, none, none⟩
        ⟨none, none, none, none, none, []⟩).2 = [] ∧
    connect_and_tail_writes ⟨"host1", none, none, none⟩
        ⟨none, none, none, none, none, []⟩ = [] ∧
    (finalStatus initialConnectionStatus
        (connect_and_tail_writes ⟨"host1", none, none, none⟩
          ⟨none, none, none, none, none, []⟩)).isError = false :=
  ⟨rfl, rfl, rfl, rfl⟩

/-- C4 (amended).  For every source configured with neither a password nor a
key file (connect and handshake succeeding), the session fails with the
"No authentication method provided" error before attempting any network
authentication call, but the failure is only returned as the session's
`io::Result`: no status write is performed, so the connection-status cell
keeps whatever value it had (it is NOT set to `Error(message)`). -/
theorem no_auth_method_amended (log : LogConfig) (env : SshEnv)
    (hp : log.password = none) (hk : log.ssh_key = none)
    (hc : env.connectErr = none) (hh : env.handshakeErr = none) :
    connect_and_tail_result log env
        = Except.error "No authentication method provided" ∧
    (authenticate log env).2 = [] ∧
    connect_and_tail_writes log env = [] ∧
    ∀ init, finalStatus init (connect_and_tail_writes log env) = init := by
  have hauth : authenticate log env
      = (Except.error "No authentication method provided", []) := by
    simp [authenticate, hp, hk]
  refine ⟨?_, ?_, ?_, ?_⟩
  · simp [connect_and_tail_result, hc, hh, hauth]
  · simp [hauth]
  · simp [connect_and_tail_writes, hc, hh, hauth]
  · intro init
    simp [finalStatus, connect_and_tail_writes, hc, hh, hauth]

/-- Witness for C4 (amended) at a concrete credential-less source. -/
theorem no_auth_method_amended_witness :
    connect_and_tail_result ⟨"h2", some "u", none, none⟩
        ⟨none, none, none, none, none, [Except.ok "l1"]⟩
      = Except.error "No authentication method provided" ∧
    (authenticate ⟨"h2", some "u", none, none⟩
        ⟨none, none, none, none, none, [Except.ok "l1"]⟩).2 = [] ∧
    connect_and_tail_writes ⟨"h2", some "u", none, none⟩
        ⟨none, none, none, none, none, [Except.ok "l1"]⟩ = [] ∧
    ∀ init, finalStatus init
        (connect_and_tail_writes ⟨"h2", some "u", none, none⟩
          ⟨none, none, none, none, none, [Except.ok "l1"]⟩) = init :=
  no_auth_method_amended ⟨"h2", some "u", none, none⟩
    ⟨none, none, none, none, none, [Except.ok "l1"]⟩ rfl rfl rfl rfl

/-- C5 (counterexample).  The status cell does not start in a `Connecting`
state: the code's `ConnectionStatus` enum (`src/ssh.rs:10-13`) has no such
variant, and the initial cell value (`src/main.rs:87`) is `Connected`. -/
theorem connecting_state_counterexample :
    specStatusOfCode initialConnectionStatus = SpecConnectionStatus.Connected ∧
    SpecConnectionStatus.Connected ≠ SpecConnectionStatus.Connecting := by
  decide

/-- C5 (amended).  Each source's status cell starts as `Connected` (there is
no `Connecting` state); any `Error` write is the final write of the session
(the ingestion loop exits after entering `Error`, so no transition leaves
it); `Connected` is written only after successful connect, handshake,
authentication and remote-exec; and in that success case the write sequence
is exactly `Connected` followed by one `Read Err` `Error` write if a read
fails (nothing on clean EOF).  Authentication and exec failures write no
status at all. -/
theorem connection_lifecycle_amended (log : LogConfig) (env : SshEnv) :
    initialConnectionStatus = ConnectionStatus.Connected ∧
    errorIsTerminal (connect_and_tail_writes log env) = true ∧
    (ConnectionStatus.Connected ∈ connect_and_tail_writes log env →
      env.connectErr = none ∧ env.handshakeErr = none ∧
      (authenticate log env).1 = Except.ok () ∧ env.execErr = none) ∧
    (env.connectErr = none → env.handshakeErr = none →
      (authenticate log env).1 = Except.ok () → env.execErr = none →
      connect_and_tail_writes log env
        = ConnectionStatus.Connected ::
          (match firstReadError env.reads with
           | some e =>
             [ConnectionStatus.Error ("Read Err (" ++ log.host ++ "): " ++ e)]
           | none => [])) := by
  refine ⟨rfl, ?_, ?_, ?_⟩
  · unfold connect_and_tail_writes
    cases hc : env.connectErr with
    | some e => rfl
    | none =>
      cases hh : env.handshakeErr with
      | some e => rfl
      | none =>
        cases ha : (authenticate log env).1 with
        | error e => rfl
        | ok u =>
          cases hx : env.execErr with
          | some e => rfl
          | none =>
            rw [readLoopWrites_eq]
            cases hf : firstReadError env.reads with
            | some e => rfl
            | none => rfl
  · intro hmem
    unfold connect_and_tail_writes at hmem
    cases hc : env.connectErr with
    | some e => rw [hc] at hmem; simp at hmem
    | none =>
      rw [hc] at hmem
      cases hh : env.handshakeErr with
      | some e => rw [hh] at hmem; simp at hmem
      | none =>
        rw [hh] at hmem
        cases ha : (authenticate log env).1 with
        | error e => rw [ha] at hmem; simp at hmem
        | ok u =>
          cases hx : env.execErr with
          | some e => rw [ha, hx] at hmem; simp at hmem
          | none => exact ⟨rfl, rfl, rfl, rfl⟩
  · intro hc hh ha hx
    simp only [connect_and_tail_writes, hc, hh, ha, hx]
    rw [readLoopWrites_eq]

/-- Witness for C5 (amended) at a concrete source and environment. -/
theorem connection_lifecycle_amended_witness :
    initialConnectionStatus = ConnectionStatus.Connected ∧
    errorIsTerminal (connect_and_tail_writes ⟨"h3", some "u", some "pw", none⟩
        ⟨none, none, none, none, none, [Except.ok "l", Except.error "boom"]⟩) = true ∧
    (ConnectionStatus.Connected ∈
        connect_and_tail_writes ⟨"h3", some "u", some "pw", none⟩
          ⟨none, none, none, none, none, [Except.ok "l", Except.error "boom"]⟩ →
      (⟨none, none, none, none, none, [Except.ok "l", Except.error "boom"]⟩ : SshEnv).connectErr = none ∧
      (⟨none, none, none, none, none, [Except.ok "l", Except.error "boom"]⟩ : SshEnv).handshakeErr = none ∧
      (authenticate ⟨"h3", some "u", some "pw", none⟩
        ⟨none, none, none, none, none, [Except.ok "l", Except.error "boom"]⟩).1 = Except.ok () ∧
      (⟨none, none, none, none, none, [Except.ok "l", Except.error "boom"]⟩ : SshEnv).execErr = none) ∧
    ((⟨none, none, none, none, none, [Except.ok "l", Except.error "boom"]⟩ : SshEnv).connectErr = none →
      (⟨none, none, none, none, none, [Except.ok "l", Except.error "boom"]⟩ : SshEnv).handshakeErr = none →
      (authenticate ⟨"h3", some "u", some "pw", none⟩
        ⟨none, none, none, none, none, [Except.ok "l", Except.error "boom"]⟩).1 = Except.ok () →
      (⟨none, none, none, none, none, [Except.ok "l", Except.error "boom"]⟩ : SshEnv).execErr = none →
      connect_and_tail_writes ⟨"h3", some "u", some "pw", none⟩
          ⟨none, none, none, none, none, [Except.ok "l", Except.error "boom"]⟩
        = ConnectionStatus.Connected ::
          (match firstReadError [Except.ok "l", Except.error "boom"] with
           | some e => [ConnectionStatus.Error ("Read Err (" ++ "h3" ++ "): " ++ e)]
           | none => [])) :=
  connection_lifecycle_amended ⟨"h3", some "u", some "pw", none⟩
    ⟨none, none, none, none, none, [Except.ok "l", Except.error "boom"]⟩

/-! ## Line ingestion text handling (C6)

What string is appended per received line.  `src/ssh.rs` `update_content`
(line 121) pushes the `read_line` result unchanged; the ingestion loop in
`src/main.rs:243` pushes `line.trim().to_string()`.  Rust `str::trim`
removes Unicode-whitespace characters from both ends; it is modelled on
`Char.isWhitespace` (the ASCII subset — all characters appearing in the
claims at issue). -/

/-- Rust `str::trim` on a character list: drop whitespace from the front,
then from the back. -/
def str_trim (l : List Char) : List Char :=
  ((l.dropWhile Char.isWhitespace).reverse.dropWhile Char.isWhitespace).reverse

/-- One iteration of the `src/ssh.rs` ingestion on the buffer: the received
line is pushed unchanged (`update_content`, `src/ssh.rs:121`). -/
def ssh_ingest_line (maxHistory : Nat) (buf : List (List Char))
    (line : List Char) : List (List Char) :=
  push_and_evict maxHistory buf line

/-- One iteration of the `src/main.rs:241-247` ingestion on the buffer: the
received line is pushed after `.trim()`. -/
def main_ingest_line (maxHistory : Nat) (buf : List (List Char))
    (line : List Char) : List (List Char) :=
  push_and_evict maxHistory buf (str_trim line)

/-- Modelled from the spec's words ("trim trailing newline"): remove one
trailing newline if present and change nothing else.  Used only to compare
the ingestion code against the claim. -/
def spec_trim_trailing_newline (l : List Char) : List Char :=
  if l.getLast? = some '\n' then l.dropLast else l

/-- C6 (counterexample).  For the received line "a\n", `src/ssh.rs` appends
"a\n" unchanged (trailing newline kept); for the received line " a\n",
`src/main.rs` appends "a" (the leading space is stripped too).  Neither
equals the claimed "received line with only its trailing newline
removed". -/
theorem ingest_trim_counterexample :
    ssh_ingest_line 10 [] ['a', '\n'] = [['a', '\n']] ∧
    spec_trim_trailing_newline ['a', '\n'] = ['a'] ∧
    ssh_ingest_line 10 [] ['a', '\n']
      ≠ [spec_trim_trailing_newline ['a', '\n']] ∧
    main_ingest_line 10 [] [' ', 'a', '\n'] = [['a']] ∧
    spec_trim_trailing_newline [' ', 'a', '\n'] = [' ', 'a'] ∧
    main_ingest_line 10 [] [' ', 'a', '\n']
      ≠ [spec_trim_trailing_newline [' ', 'a', '\n']] := by
  decide

theorem dropWhile_dropWhile_self (p : α → Bool) (l : List α) :
    (l.dropWhile p).dropWhile p = l.dropWhile p := by
  induction l with
  | nil => rfl
  | cons a t ih =>
    by_cases h : p a
    · simp [List.dropWhile_cons, h, ih]
    · simp [List.dropWhile_cons, h]

theorem all_takeWhile (p : α → Bool) (l : List α) :
    (l.takeWhile p).all p = true := by
  rw [List.all_eq_true]
  intro a ha
  exact List.mem_takeWhile_imp ha

/-- A nonempty `dropWhile` result keeps the last element of its input. -/
theorem getLast?_dropWhile (p : α → Bool) (l : List α)
    (h : l.dropWhile p ≠ []) : (l.dropWhile p).getLast? = l.getLast? := by
  induction l with
  | nil => simp at h
  | cons a t ih =>
    by_cases hp : p a
    · rw [List.dropWhile_cons, if_pos (by simp [hp])] at h ⊢
      rw [ih h]
      cases t with
      | nil => simp at h
      | cons b bt => rw [List.getLast?_cons_cons]
    · rw [List.dropWhile_cons, if_neg (by simp [hp])]

/-- Decomposition of `str_trim`: the input is a fully-whitespace prefix,
the trimmed core, and a fully-whitespace suffix. -/
theorem str_trim_decomposition (l : List Char) :
    l.takeWhile Char.isWhitespace ++ str_trim l
        ++ (((l.dropWhile Char.isWhitespace).reverse.takeWhile
              Char.isWhitespace).reverse)
      = l ∧
    (l.takeWhile Char.isWhitespace).all Char.isWhitespace = true ∧
    ((((l.dropWhile Char.isWhitespace).reverse.takeWhile
        Char.isWhitespace).reverse)).all Char.isWhitespace = true := by
  refine ⟨?_, all_takeWhile _ l, ?_⟩
  · have hmid : (l.dropWhile Char.isWhitespace).reverse.takeWhile Char.isWhitespace
        ++ (l.dropWhile Char.isWhitespace).reverse.dropWhile Char.isWhitespace
        = (l.dropWhile Char.isWhitespace).reverse :=
      List.takeWhile_append_dropWhile Char.isWhitespace
        (l.dropWhile Char.isWhitespace).reverse
    have h2 : str_trim l
        ++ ((l.dropWhile Char.isWhitespace).reverse.takeWhile Char.isWhitespace).reverse
        = l.dropWhile Char.isWhitespace := by
      rw [str_trim, ← List.reverse_append, hmid, List.reverse_reverse]
    rw [List.append_assoc, h2, List.takeWhile_append_dropWhile]
  · rw [List.all_eq_true]
    intro a ha
    rw [List.mem_reverse] at ha
    exact List.mem_takeWhile_imp ha

/-- `str_trim` is idempotent: its result carries no leading or trailing
whitespace left to remove. -/
theorem str_trim_idempotent (l : List Char) :
    str_trim (str_trim l) = str_trim l := by
  have hfront : (str_trim l).dropWhile Char.isWhitespace = str_trim l := by
    cases hh : str_trim l with
    | nil => rfl
    | cons c rest =>
      have hnil : (l.dropWhile Char.isWhitespace).reverse.dropWhile
          Char.isWhitespace ≠ [] := by
        intro he
        rw [str_trim, he] at hh
        simp at hh
      have hhead : (str_trim l).head? = (l.dropWhile Char.isWhitespace).head? := by
        rw [str_trim, List.head?_reverse, getLast?_dropWhile _ _ hnil,
          List.getLast?_reverse]
      have hc : (l.dropWhile Char.isWhitespace).head? = some c := by
        rw [← hhead, hh]
        rfl
      have hcnw : Char.isWhitespace c = false := by
        have h2 := List.head?_dropWhile_not Char.isWhitespace l
        rw [hc] at h2
        simpa using h2
      rw [List.dropWhile_cons, hcnw]
      simp
  calc str_trim (str_trim l)
      = (((str_trim l).dropWhile Char.isWhitespace).reverse.dropWhile
          Char.isWhitespace).reverse := rfl
    _ = ((str_trim l).reverse.dropWhile Char.isWhitespace).reverse := by
          rw [hfront]
    _ = (((((l.dropWhile Char.isWhitespace).reverse.dropWhile
          Char.isWhitespace).reverse).reverse.dropWhile
          Char.isWhitespace)).reverse := rfl
    _ = str_trim l := by
          rw [List.reverse_reverse, dropWhile_dropWhile_self]
          rfl

/-- The element just pushed is the last element of the buffer (no eviction
removes it while `maxHistory > 0`). -/
theorem push_and_evict_getLast (m : Nat) (buf : List α) (x : α)
    (hm : 0 < m) : (push_and_evict m buf x).getLast? = some x := by
  rw [push_and_evict, evictLoop_eq_drop]
  have hlen : (buf ++ [x]).length - m ≤ buf.length := by
    simp only [List.length_append, List.length_cons, List.length_nil]
    omega
  rw [List.drop_append_of_le_length hlen, List.getLast?_concat]

/-- C6 (amended).  Per received line: the `src/ssh.rs` ingestion appends the
line unchanged (trailing newline included), while the `src/main.rs`
ingestion appends `line.trim()` — the line with all leading and trailing
whitespace removed, not just a trailing newline.  The received line
decomposes as whitespace prefix ++ appended core ++ whitespace suffix, and
the appended core has no whitespace left to trim. -/
theorem ingest_append_amended (maxHistory : Nat) (buf : List (List Char))
    (line : List Char) (hm : 0 < maxHistory) :
    (ssh_ingest_line maxHistory buf line).getLast? = some line ∧
    (main_ingest_line maxHistory buf line).getLast? = some (str_trim line) ∧
    line.takeWhile Char.isWhitespace ++ str_trim line
        ++ ((line.dropWhile Char.isWhitespace).reverse.takeWhile
              Char.isWhitespace).reverse = line ∧
    (line.takeWhile Char.isWhitespace).all Char.isWhitespace = true ∧
    (((line.dropWhile Char.isWhitespace).reverse.takeWhile
        Char.isWhitespace).reverse).all Char.isWhitespace = true ∧
    str_trim (str_trim line) = str_trim line := by
  obtain ⟨hd, hp, hs⟩ := str_trim_decomposition line
  exact ⟨push_and_evict_getLast maxHistory buf line hm,
    push_and_evict_getLast maxHistory buf (str_trim line) hm,
    hd, hp, hs, str_trim_idempotent line⟩

/-- Witness for C6 (amended) at the concrete received line " a\n". -/
theorem ingest_append_amended_witness :
    (ssh_ingest_line 10 [] [' ', 'a', '\n']).getLast? = some [' ', 'a', '\n'] ∧
    (main_ingest_line 10 [] [' ', 'a', '\n']).getLast?
        = some (str_trim [' ', 'a', '\n']) ∧
    [' ', 'a', '\n'].takeWhile Char.isWhitespace ++ str_trim [' ', 'a', '\n']
        ++ (([' ', 'a', '\n'].dropWhile Char.isWhitespace).reverse.takeWhile
              Char.isWhitespace).reverse = [' ', 'a', '\n'] ∧
    ([' ', 'a', '\n'].takeWhile Char.isWhitespace).all Char.isWhitespace = true ∧
    ((([' ', 'a', '\n'].dropWhile Char.isWhitespace).reverse.takeWhile
        Char.isWhitespace).reverse).all Char.isWhitespace = true ∧
    str_trim (str_trim [' ', 'a', '\n']) = str_trim [' ', 'a', '\n'] :=
  ingest_append_amended 10 [] [' ', 'a', '\n'] (by decide)

/-! ## HighlightEngine (`LogFormatter::format_line`, `src/ui.rs:438-465` and
`src/main.rs:138-165`)

The regex crate is the external collaborator: the set of matches found over
the line enters the model as a list of `(start, end, style)` triples (byte
offsets modelled as character indices, styles as opaque numbers — the
claims at issue involve no multi-byte characters and no concrete styles).
The code collects the matches of every rule, sorts them by start offset
(`sort_by_key`, a stable sort), and sweeps left to right. -/

/-- A styled span of text: the text plus `some style`, or `none` for the
unstyled (`Span::raw`) segments. -/
abbrev Segment := List Char × Option Nat

/-- `line[s..e]` on the character list. -/
def sliceChars (line : List Char) (s e : Nat) : List Char :=
  (line.drop s).take (e - s)

/-- Stable insertion into a list sorted by start offset (an element is
placed after all elements with start offsets less than or equal to its
own), as `sort_by_key(|(start, _, _)| start)` behaves. -/
def insertByStart (m : Nat × Nat × Nat) :
    List (Nat × Nat × Nat) → List (Nat × Nat × Nat)
  | [] => [m]
  | x :: xs => if m.1 < x.1 then m :: x :: xs else x :: insertByStart m xs

/-- Stable sort by start offset. -/
def sortByStart : List (Nat × Nat × Nat) → List (Nat × Nat × Nat)
  | [] => []
  | x :: xs => insertByStart x (sortByStart xs)

/-- The sweep loop of `format_line`: emit an unstyled gap before each match,
then the styled match, then (after the last match) the unstyled remainder
when nonempty. -/
def sweepSegments (line : List Char) :
    Nat → List (Nat × Nat × Nat) → List Segment
  | lastEnd, [] =>
    if lastEnd < line.length then [(line.drop lastEnd, none)] else []
  | lastEnd, (s, e, st) :: ms =>
    (if lastEnd < s then [(sliceChars line lastEnd s, none)] else [])
      ++ ((sliceChars line s e, some st) :: sweepSegments line e ms)

/-- `format_line(line)` given the matches collected from the rules. -/
def format_line (line : List Char) (ms : List (Nat × Nat × Nat)) :
    List Segment :=
  sweepSegments line 0 (sortByStart ms)

/-- C8 (counterexample).  For the empty line — which no rule of the fixed
rule set matches, since every pattern requires at least one character —
`format_line` returns zero segments, not one unstyled segment equal to the
input: the final `if last_match_end < line.len()` guard skips the empty
remainder. -/
theorem format_line_empty_counterexample :
    format_line [] [] = [] ∧
    format_line [] [] ≠ [(([] : List Char), (none : Option Nat))] := by
  decide

/-- C8 (amended).  For every nonempty line on which no highlighting rule's
pattern has any match, `format_line` returns exactly one unstyled segment
whose text equals the input line; on the empty line it returns no segments
at all. -/
theorem format_line_no_match_amended (line : List Char) (hne : line ≠ []) :
    format_line line [] = [(line, (none : Option Nat))] ∧
    format_line [] ([] : List (Nat × Nat × Nat)) = [] := by
  constructor
  · have hlen : 0 < line.length := List.length_pos.mpr hne
    simp [format_line, sortByStart, sweepSegments, hlen]
  · rfl

/-- Witness for C8 (amended) at the concrete line "x". -/
theorem format_line_no_match_amended_witness :
    format_line ['x'] [] = [(['x'], (none : Option Nat))] ∧
    format_line [] ([] : List (Nat × Nat × Nat)) = [] :=
  format_line_no_match_amended ['x'] (by decide)

/-! ## LayoutEngine (`create_layout`, `src/main.rs:591-620`)

`create_layout` computes `rows = ceil(sqrt(n))` and `cols = ceil(n / rows)`,
builds one `Constraint::Percentage(100 / rows)` per row (integer division),
splits the outer rectangle vertically, splits each row horizontally with
`Constraint::Percentage(100 / cols)` per column, then truncates the
flattened list to `n`.  The rectangle split itself is done by the terminal
backend's layout solver, an external collaborator.  Modelled from the spec:
"Percentage-based sizing must round consistently so the rectangles exactly
tile the outer rectangle" — each of the first `k − 1` chunks receives
`⌊total·pct/100⌋` cells and the last chunk absorbs the remainder. -/

structure Rect where
  x : Nat
  y : Nat
  width : Nat
  height : Nat
deriving DecidableEq

/-- `ceil(sqrt(n))`, as the Rust `(n as f32).sqrt().ceil() as usize`
computes for pane counts in `f32` exact range: the least `r` with
`n ≤ r * r`. -/
def ceilSqrt (n : Nat) : Nat :=
  ((List.range (n + 1)).find? (fun r => n ≤ r * r)).getD 0

/-- `ceil(n / k)`, as `(n as f32 / k as f32).ceil() as usize` computes. -/
def ceilDiv (n k : Nat) : Nat := (n + k - 1) / k

/-- Modelled from the spec: the backend's split of `total` cells into `k`
chunks of `pct`% each, rounding consistently so the chunks sum to `total`:
the first `k − 1` chunks get `⌊total·pct/100⌋`, the last the remainder. -/
def splitSizes (total pct : Nat) : Nat → List Nat
  | 0 => []
  | k + 1 => List.replicate k (total * pct / 100)
      ++ [total - k * (total * pct / 100)]

/-- The consecutive `(offset, size)` intervals obtained by stacking `sizes`
starting at `o`. -/
def intervals (o : Nat) : List Nat → List (Nat × Nat)
  | [] => []
  | s :: ss => (o, s) :: intervals (o + s) ss

/-- `create_layout(area, window_count)` (`src/main.rs:591-620`): vertical
split into `rows` bands, each split horizontally into `cols` cells,
row-major, truncated to `window_count` rectangles. -/
def create_layout (area : Rect) (n : Nat) : List Rect :=
  let rows := ceilSqrt n
  let cols := ceilDiv n rows
  let rowRects := (intervals area.y (splitSizes area.height (100 / rows) rows)).map
    (fun biv => Rect.mk area.x biv.1 area.width biv.2)
  let cells := (rowRects.map (fun r =>
    (intervals r.x (splitSizes r.width (100 / cols) cols)).map
      (fun civ => Rect.mk civ.1 r.y civ.2 r.height))).flatten
  cells.take n

/-- Whether the cell `(px, py)` lies inside `r`. -/
def inRect (r : Rect) (px py : Nat) : Bool :=
  decide (r.x ≤ px) && decide (px < r.x + r.width) &&
    decide (r.y ≤ py) && decide (py < r.y + r.height)

/-- The rectangles `rs` exactly tile `outer`: every cell of `outer` is
covered by exactly one rectangle and no cell outside `outer` is covered. -/
def exactTiles (rs : List Rect) (outer : Rect) : Prop :=
  ∀ px py : Nat,
    rs.countP (fun r => inRect r px py) = if inRect outer px py then 1 else 0

/-- C9 (counterexample).  For `n = 3` panes on a 10×10 rectangle the grid is
2×2 = 4 cells truncated to 3, so the bottom-right quarter (e.g. the cell at
(7,7)) is covered by no produced rectangle: the produced rectangles do not
tile the outer rectangle. -/
theorem layout_tiling_counterexample :
    (create_layout ⟨0, 0, 10, 10⟩ 3).length = 3 ∧
    inRect ⟨0, 0, 10, 10⟩ 7 7 = true ∧
    (create_layout ⟨0, 0, 10, 10⟩ 3).countP (fun r => inRect r 7 7) = 0 ∧
    ¬ exactTiles (create_layout ⟨0, 0, 10, 10⟩ 3) ⟨0, 0, 10, 10⟩ := by
  refine ⟨by decide, by decide, by decide, ?_⟩
  intro h
  have h77 := h 7 7
  revert h77
  decide

theorem splitSizes_length (total pct k : Nat) :
    (splitSizes total pct k).length = k := by
  cases k <;> simp [splitSizes]

theorem intervals_length : ∀ (ss : List Nat) (o : Nat),
    (intervals o ss).length = ss.length := by
  intro ss
  induction ss with
  | nil => intro o; rfl
  | cons s ss ih => intro o; simp [intervals, ih]

/-- Sum of the modelled percentage split: the chunks exactly cover `total`
when the percentage is the layout's `100 / k` for `k` chunks. -/
theorem splitSizes_sum (total k : Nat) (hk : 1 ≤ k) :
    (splitSizes total (100 / k) k).sum = total := by
  obtain ⟨k', rfl⟩ : ∃ k', k = k' + 1 := ⟨k - 1, by omega⟩
  have h1 : total * (100 / (k' + 1)) / 100 ≤ total / (k' + 1) := by
    have ha : (100 / (k' + 1)) * (k' + 1) ≤ 100 := Nat.div_mul_le_self 100 (k' + 1)
    have hb : total * (100 / (k' + 1)) * (k' + 1) ≤ total * 100 := by
      calc total * (100 / (k' + 1)) * (k' + 1)
          = total * ((100 / (k' + 1)) * (k' + 1)) := by ring
        _ ≤ total * 100 := Nat.mul_le_mul_left total ha
    have hc : total * (100 / (k' + 1)) ≤ total * 100 / (k' + 1) :=
      (Nat.le_div_iff_mul_le (by omega)).mpr hb
    have hd : total * (100 / (k' + 1)) / 100 ≤ total * 100 / (k' + 1) / 100 :=
      Nat.div_le_div_right hc
    have he : total * 100 / (k' + 1) / 100 = total / (k' + 1) := by
      rw [Nat.div_div_eq_div_mul, show (k' + 1) * 100 = 100 * (k' + 1) by ring,
        show total * 100 = 100 * total by ring]
      exact Nat.mul_div_mul_left total (k' + 1) (by omega)
    omega
  have h2 : k' * (total * (100 / (k' + 1)) / 100) ≤ total := by
    have h3 : (k' + 1) * (total / (k' + 1)) ≤ total := by
      rw [Nat.mul_comm]
      exact Nat.div_mul_le_self total (k' + 1)
    have h4 : k' * (total * (100 / (k' + 1)) / 100) ≤ k' * (total / (k' + 1)) :=
      Nat.mul_le_mul_left k' h1
    have h5 : k' * (total / (k' + 1)) ≤ (k' + 1) * (total / (k' + 1)) :=
      Nat.mul_le_mul_right _ (by omega)
    omega
  simp [splitSizes, List.sum_append, List.sum_replicate, smul_eq_mul]
  omega

/-- How many of the stacked intervals contain the point `p`: exactly one if
`p` is within the covered range, none otherwise. -/
theorem intervals_count (p : Nat) :
    ∀ (ss : List Nat) (o : Nat),
      (intervals o ss).countP
          (fun iv => decide (iv.1 ≤ p) && decide (p < iv.1 + iv.2))
        = if o ≤ p ∧ p < o + ss.sum then 1 else 0 := by
  intro ss
  induction ss with
  | nil =>
    intro o
    simp only [intervals, List.countP_nil, List.sum_nil]
    split_ifs <;> omega
  | cons s ss ih =>
    intro o
    rw [intervals, List.countP_cons, ih (o + s)]
    simp only [List.sum_cons, Bool.and_eq_true, decide_eq_true_eq]
    split_ifs <;> omega

/-- Coverage count of one horizontal band of cells. -/
theorem band_cells_count (px py y h x : Nat) (ws : List Nat) :
    ((intervals x ws).map (fun civ => Rect.mk civ.1 y civ.2 h)).countP
        (fun r => inRect r px py)
      = if (x ≤ px ∧ px < x + ws.sum) ∧ (y ≤ py ∧ py < y + h) then 1 else 0 := by
  rw [List.countP_map]
  by_cases hy : y ≤ py ∧ py < y + h
  · have hcongr : ∀ civ ∈ intervals x ws,
        ((fun r => inRect r px py)
            ∘ (fun civ : Nat × Nat => Rect.mk civ.1 y civ.2 h)) civ = true
          ↔ (fun iv : Nat × Nat =>
              decide (iv.1 ≤ px) && decide (px < iv.1 + iv.2)) civ = true := by
      intro civ _
      simp [inRect, hy.1, hy.2]
    rw [List.countP_congr hcongr, intervals_count px ws x]
    simp [hy]
  · have hzero : ((intervals x ws).countP
        ((fun r => inRect r px py)
          ∘ (fun civ : Nat × Nat => Rect.mk civ.1 y civ.2 h))) = 0 := by
      rw [List.countP_eq_zero]
      intro civ _
      simp only [Function.comp_apply, inRect, Bool.and_eq_true,
        decide_eq_true_eq]
      intro hcontra
      exact hy ⟨hcontra.1.2, hcontra.2⟩
    rw [hzero]
    simp [hy]

/-- Coverage count of the full row-major grid of cells: exactly one cell
contains each point of the covered rectangle, none any point outside. -/
theorem grid_count (px py x W : Nat) (ws : List Nat) (hws : ws.sum = W) :
    ∀ (hs : List Nat) (y : Nat),
      (((intervals y hs).map (fun biv =>
          (intervals x ws).map
            (fun civ => Rect.mk civ.1 biv.1 civ.2 biv.2))).flatten).countP
          (fun r => inRect r px py)
        = if (x ≤ px ∧ px < x + W) ∧ (y ≤ py ∧ py < y + hs.sum) then 1
          else 0 := by
  intro hs
  induction hs with
  | nil =>
    intro y
    simp only [intervals, List.map_nil, List.flatten_nil, List.countP_nil,
      List.sum_nil]
    split_ifs <;> omega
  | cons s hs ih =>
    intro y
    rw [intervals, List.map_cons, List.flatten_cons, List.countP_append,
      band_cells_count px py y s x ws, ih (y + s), hws]
    simp only [List.sum_cons]
    split_ifs <;> omega

theorem grid_length (x y : Nat) (ws hs : List Nat) :
    (((intervals y hs).map (fun biv => (intervals x ws).map
        (fun civ => Rect.mk civ.1 biv.1 civ.2 biv.2))).flatten).length
      = hs.length * ws.length := by
  induction hs generalizing y with
  | nil => simp [intervals]
  | cons s hs ih =>
    rw [intervals, List.map_cons, List.flatten_cons, List.length_append,
      List.length_map, intervals_length, ih (y + s)]
    simp [intervals_length]
    ring

/-- `create_layout` written as the row-major grid of cell rectangles (all
rows share the outer `x`/`width`, so the per-row column split is the same
for every row). -/
theorem create_layout_eq (area : Rect) (n : Nat) :
    create_layout area n
      = (((intervals area.y
            (splitSizes area.height (100 / ceilSqrt n) (ceilSqrt n))).map
          (fun biv =>
            (intervals area.x
              (splitSizes area.width (100 / ceilDiv n (ceilSqrt n))
                (ceilDiv n (ceilSqrt n)))).map
              (fun civ => Rect.mk civ.1 biv.1 civ.2 biv.2))).flatten).take n := by
  simp only [create_layout, List.map_map]
  rfl

/-- C9 (amended).  For every pane count `n ≥ 1` whose grid is exact
(`rows·cols = n` with `rows = ceil(sqrt n)`, `cols = ceil(n/rows)`) and
every outer rectangle, the produced rectangles — `rows` horizontal bands
each split into `cols` cells in row-major order — exactly tile the outer
rectangle (band heights and cell widths are the integer-rounded percentage
shares, the last chunk absorbing the rounding remainder).  When
`rows·cols > n` the truncation discards trailing cells and part of the
rectangle is left uncovered. -/
theorem layout_tiles_amended (area : Rect) (n : Nat) (hn : 1 ≤ n)
    (hgrid : ceilSqrt n * ceilDiv n (ceilSqrt n) = n) :
    exactTiles (create_layout area n) area := by
  intro px py
  have hrows : 1 ≤ ceilSqrt n := by
    by_contra h
    have h0 : ceilSqrt n = 0 := by omega
    rw [h0] at hgrid
    omega
  have hcols : 1 ≤ ceilDiv n (ceilSqrt n) := by
    by_contra h
    have h0 : ceilDiv n (ceilSqrt n) = 0 := by omega
    rw [h0] at hgrid
    omega
  have hW : (splitSizes area.width (100 / ceilDiv n (ceilSqrt n))
      (ceilDiv n (ceilSqrt n))).sum = area.width :=
    splitSizes_sum area.width _ hcols
  have hH : (splitSizes area.height (100 / ceilSqrt n) (ceilSqrt n)).sum
      = area.height :=
    splitSizes_sum area.height _ hrows
  rw [create_layout_eq]
  have hlen : (((intervals area.y
      (splitSizes area.height (100 / ceilSqrt n) (ceilSqrt n))).map
      (fun biv => (intervals area.x
        (splitSizes area.width (100 / ceilDiv n (ceilSqrt n))
          (ceilDiv n (ceilSqrt n)))).map
        (fun civ => Rect.mk civ.1 biv.1 civ.2 biv.2))).flatten).length = n := by
    rw [grid_length, splitSizes_length, splitSizes_length, hgrid]
  rw [List.take_of_length_le (le_of_eq hlen)]
  rw [grid_count px py area.x area.width _ hW _ area.y, hH]
  split_ifs with h1 h2 <;>
    first
      | rfl
      | (simp only [inRect, Bool.and_eq_true, decide_eq_true_eq] at *; omega)

/-- Witness for C9 (amended): `n = 4` panes (2×2 exact grid) on a 10×10
rectangle. -/
theorem layout_tiles_amended_witness :
    1 ≤ 4 ∧ ceilSqrt 4 * ceilDiv 4 (ceilSqrt 4) = 4 ∧
    exactTiles (create_layout ⟨0, 0, 10, 10⟩ 4) ⟨0, 0, 10, 10⟩ :=
  ⟨by decide, by decide,
    layout_tiles_amended ⟨0, 0, 10, 10⟩ 4 (by decide) (by decide)⟩

/-! ## Pane selection (`move_selection`, `src/ui.rs:351-369` and
`src/main.rs:622-655`) -/

inductive MoveDirection
  | Left | Right | Up | Down

/-- `move_selection` of `src/ui.rs:351-369`: single-column behaviour — Up
decrements when above 0, Down increments when below `window_count − 1`,
Left/Right do nothing. -/
def move_selection_ui (windowCount sel : Nat) : MoveDirection → Nat
  | .Up => if sel > 0 then sel - 1 else sel
  | .Down => if sel < windowCount - 1 then sel + 1 else sel
  | .Left => sel
  | .Right => sel

/-- `move_selection` of `src/main.rs:622-655`: grid movement with
wrap-around at the edges; the move is applied only when the target cell
index is below `window_count`, otherwise the selection is unchanged. -/
def move_selection_main (windowCount sel : Nat) (d : MoveDirection) : Nat :=
  let rows := ceilSqrt windowCount
  let cols := ceilDiv windowCount rows
  let currentRow := sel / cols
  let currentCol := sel % cols
  let rc : Nat × Nat :=
    match d with
    | .Left => (currentRow, if currentCol > 0 then currentCol - 1 else cols - 1)
    | .Right => (currentRow, (currentCol + 1) % cols)
    | .Up => (if currentRow > 0 then currentRow - 1 else rows - 1, currentCol)
    | .Down => ((currentRow + 1) % rows, currentCol)
  let newIndex := rc.1 * cols + rc.2
  if newIndex < windowCount then newIndex else sel

theorem move_selection_ui_lt (n sel : Nat) (d : MoveDirection) (h : sel < n) :
    move_selection_ui n sel d < n := by
  cases d <;> simp only [move_selection_ui] <;> (try split) <;> omega

theorem move_selection_main_lt (n sel : Nat) (d : MoveDirection) (h : sel < n) :
    move_selection_main n sel d < n := by
  cases d <;> simp only [move_selection_main] <;> (repeat' split) <;> omega

/-- C10.  For every window count `n ≥ 1` and every sequence of
pane-selection moves in any directions, starting from selected index 0, the
selected window index stays in `[0, n)` — for both the single-column
`src/ui.rs` version and the wrap-around grid `src/main.rs` version — so
indexing the window list with the selected index never goes out of
bounds.  (Universality over the move sequence covers every prefix, i.e.
the bound holds after every move.) -/
theorem selection_in_bounds (n : Nat) (hn : 1 ≤ n)
    (moves : List MoveDirection) :
    moves.foldl (move_selection_ui n) 0 < n ∧
    moves.foldl (move_selection_main n) 0 < n := by
  have hui : ∀ (ms : List MoveDirection) (sel : Nat), sel < n →
      ms.foldl (move_selection_ui n) sel < n := by
    intro ms
    induction ms with
    | nil => intro sel h; simpa using h
    | cons d ds ih =>
      intro sel h
      exact ih _ (move_selection_ui_lt n sel d h)
  have hmain : ∀ (ms : List MoveDirection) (sel : Nat), sel < n →
      ms.foldl (move_selection_main n) sel < n := by
    intro ms
    induction ms with
    | nil => intro sel h; simpa using h
    | cons d ds ih =>
      intro sel h
      exact ih _ (move_selection_main_lt n sel d h)
  exact ⟨hui moves 0 (by omega), hmain moves 0 (by omega)⟩

/-- Witness for C10 at 4 windows and a concrete move sequence. -/
theorem selection_in_bounds_witness :
    1 ≤ 4 ∧
    ([MoveDirection.Down, MoveDirection.Right, MoveDirection.Up].foldl
        (move_selection_ui 4) 0 < 4 ∧
      [MoveDirection.Down, MoveDirection.Right, MoveDirection.Up].foldl
        (move_selection_main 4) 0 < 4) :=
  ⟨by decide, selection_in_bounds 4 (by decide)
    [MoveDirection.Down, MoveDirection.Right, MoveDirection.Up]⟩

end Rogger
